import Mathlib

/-!
Shallow embedding of the ReguluS-MAS pipeline (src/src/ingestion/parser.py,
src/src/ingestion/enrichment.py, src/src/retrieval/retriever.py).

Python regular expressions are modelled over ASCII character classes; the
external embedding / generation / vector-index services are modelled as
oracle functions passed in explicitly.  PDF text extraction (PyMuPDF) is a
boundary: `parse_mas_notice` here takes the already-extracted page text.
-/

namespace ReguluS

/-! ### Character classes (ASCII fragments of Python `\d`, `\w`, `\s`, `[A-Z]`, `[a-z]`) -/

def isDigitA (c : Char) : Bool := '0' ≤ c && c ≤ '9'

def isUpperA (c : Char) : Bool := 'A' ≤ c && c ≤ 'Z'

def isLowerA (c : Char) : Bool := 'a' ≤ c && c ≤ 'z'

def isSpaceA (c : Char) : Bool :=
  c = ' ' || c = '\t' || c = '\n' || c = '\r' || c = '\x0b' || c = '\x0c'

def isWordA (c : Char) : Bool := isUpperA c || isLowerA c || isDigitA c || c = '_'

/-- Python `[\d\w\s]` (note `\d ⊆ \w`). -/
def isDWS (c : Char) : Bool := isWordA c || isSpaceA c

/-! ### Whitespace handling: `str.strip()` and `re.sub(r'\s+', ' ', t).strip()` -/

/-- Python `str.strip()`. -/
def pyStrip (l : List Char) : List Char :=
  ((l.dropWhile isSpaceA).reverse.dropWhile isSpaceA).reverse

/-- Python `re.sub(r'\s+', ' ', t)`: every maximal whitespace run becomes one space. -/
def collapseWS (l : List Char) : List Char :=
  l.foldr
    (fun c acc =>
      if isSpaceA c then
        match acc with
        | ' ' :: _ => acc
        | _ => ' ' :: acc
      else c :: acc)
    []

/-- Python `re.sub(r'\s+', ' ', t).strip()`, as used by parser.py for node text. -/
def pyNormalize (s : String) : String := ⟨pyStrip (collapseWS s.data)⟩

/-- Python `str.split('\n')`. -/
def splitNL : List Char → List (List Char)
  | [] => [[]]
  | c :: cs =>
    if c = '\n' then [] :: splitNL cs
    else
      match splitNL cs with
      | [] => [[c]]
      | w :: ws => (c :: w) :: ws

/-! ### Line classifiers: `^(\d+[A-Z]?)\.?\s+.*` and `^\(([a-z])\)\s+.*` (re.match) -/

/-- Whether `para_num_pattern = re.compile(r'^(\d+[A-Z]?)\.?\s+.*')` matches the line.
A match exists iff the line is digits, an optional uppercase letter, an optional
dot, then a whitespace character (the rest is absorbed by the trailing `.*`);
taking the maximal digit run and consuming each optional atom when present is
equivalent to the backtracking search. -/
def isNewPara (l : List Char) : Bool :=
  match l.span isDigitA with
  | ([], _) => false
  | (_ :: _, r1) =>
    let r2 := match r1 with
      | c :: cs => if isUpperA c then cs else r1
      | [] => r1
    let r3 := match r2 with
      | c :: cs => if c = '.' then cs else r2
      | [] => r2
    match r3 with
    | c :: _ => isSpaceA c
    | [] => false

/-- Whether `para_alpha_pattern = re.compile(r'^\(([a-z])\)\s+.*')` matches
the line: an opening parenthesis, one lowercase letter, a closing parenthesis,
then a whitespace character (the rest absorbed by `.*`). -/
def isNewSubPara (l : List Char) : Bool :=
  match l with
  | a :: c :: b :: d :: _ => a == '(' && isLowerA c && b == ')' && isSpaceA d
  | _ => false

/-! ### Node data model (parser.py node dicts) -/

/-- `node_type` values: `"paragraph"`, `"sub-paragraph"`, `"full_text"`. -/
inductive NodeType
  | paragraph
  | subParagraph
  | fullText
deriving DecidableEq, Repr

structure Node where
  node_id : String
  node_type : NodeType
  text : String
  parent_id : Option String
  source_filename : String
deriving DecidableEq, Repr

/-- Mutable loop state of parse_mas_notice: the growing `nodes` list (its last
element is the node currently accumulating text), `node_counter`, and the
`node_id` of `last_top_level_node` (only its id is ever read). -/
structure ParseState where
  nodes : List Node
  node_counter : Nat
  last_top_level : Option String
deriving Repr

/-- Apply `f` to the last element of the list (Python `nodes[-1]` update);
identity on the empty list. -/
def mapLast (f : Node → Node) : List Node → List Node
  | [] => []
  | [n] => [f n]
  | n :: m :: ns => n :: mapLast f (m :: ns)

/-- One iteration of the `for line in lines` loop of parse_mas_notice. -/
def processLine (filename : String) (st : ParseState) (rawLine : List Char) : ParseState :=
  let line := pyStrip rawLine
  if line.isEmpty then st
  else
    let is_new_para := isNewPara line
    let is_new_sub_para := isNewSubPara line
    if is_new_para || is_new_sub_para then
      let nodes0 := mapLast (fun n => { n with text := pyNormalize n.text }) st.nodes
      let node_type := if is_new_sub_para then NodeType.subParagraph else NodeType.paragraph
      let parent_id := if is_new_sub_para then st.last_top_level else none
      let node_id := "node_" ++ toString st.node_counter
      let new_node : Node :=
        { node_id := node_id, node_type := node_type, text := ⟨line⟩,
          parent_id := parent_id, source_filename := filename }
      { nodes := nodes0 ++ [new_node],
        node_counter := st.node_counter + 1,
        last_top_level := if is_new_para then some node_id else st.last_top_level }
    else if st.nodes.isEmpty then st
    else { st with nodes := mapLast (fun n => { n with text := n.text ++ " " ++ String.mk line }) st.nodes }

/-- The node list produced by parse_mas_notice from the extracted page text:
line loop, final normalization of the last node, then the `full_text`
fallback when no marker ever matched. -/
def parseNodes (full_text : String) (filename : String) : List Node :=
  let lines := splitNL full_text.data
  let st := lines.foldl (processLine filename) ⟨[], 1, none⟩
  let nodes := mapLast (fun n => { n with text := pyNormalize n.text }) st.nodes
  if nodes.isEmpty then
    [{ node_id := "node_1", node_type := NodeType.fullText,
       text := pyNormalize full_text, parent_id := none, source_filename := filename }]
  else nodes

/-! ### Filename metadata: `re.search(r'MAS Notice (\w+)_dated ([\d\w\s]+)_effective ([\d\w\s]+)\.pdf', filename)` -/

structure DocMetadata where
  notice_id : String
  publication_date : String
  effective_date : String
deriving DecidableEq, Repr

/-- Candidate group lengths in the order a greedy quantifier tries them: n, n-1, ..., 1. -/
def countdown : Nat → List Nat
  | 0 => []
  | n + 1 => (n + 1) :: countdown n

def firstSome {α β : Type} (f : α → Option β) : List α → Option β
  | [] => none
  | a :: as =>
    match f a with
    | some b => some b
    | none => firstSome f as

/-- Match the tail of the pattern after the literal `"MAS Notice "`: the three
capture groups with greedy backtracking (each group tries its longest viable
length first; a group matches at least one character). -/
def tryGroups (l : List Char) : Option (String × String × String) :=
  firstSome
    (fun k1 =>
      let g1 := l.take k1
      let r1 := l.drop k1
      if List.isPrefixOf "_dated ".data r1 then
        let r1b := r1.drop 7
        firstSome
          (fun k2 =>
            let g2 := r1b.take k2
            let r2 := r1b.drop k2
            if List.isPrefixOf "_effective ".data r2 then
              let r2b := r2.drop 11
              firstSome
                (fun k3 =>
                  let g3 := r2b.take k3
                  let r3 := r2b.drop k3
                  if List.isPrefixOf ".pdf".data r3 then
                    some (⟨g1⟩, ⟨g2⟩, ⟨g3⟩)
                  else none)
                (countdown ((r2b.span isDWS).1.length))
            else none)
          (countdown ((r1b.span isDWS).1.length))
      else none)
    (countdown ((l.span isWordA).1.length))

/-- Try the whole pattern anchored at this position. -/
def tryMatchAt (l : List Char) : Option (String × String × String) :=
  if List.isPrefixOf "MAS Notice ".data l then tryGroups (l.drop 11) else none

/-- `re.search`: leftmost matching position wins. -/
def searchMetaAux : List Char → Option (String × String × String)
  | [] => none
  | c :: cs =>
    match tryMatchAt (c :: cs) with
    | some r => some r
    | none => searchMetaAux cs

/-- Metadata extraction of parse_mas_notice (lines 19-28): pattern match on the
filename; all three fields default to "Unknown" on non-match. -/
def extract_metadata (filename : String) : DocMetadata :=
  match searchMetaAux filename.data with
  | some (g1, g2, g3) =>
    { notice_id := "MAS Notice " ++ g1, publication_date := g2, effective_date := g3 }
  | none =>
    { notice_id := "Unknown", publication_date := "Unknown", effective_date := "Unknown" }

/-- The structured document emitted by parse_mas_notice (`{"metadata": ..., "content": nodes}`). -/
structure Document where
  metadata : DocMetadata
  content : List Node
deriving DecidableEq, Repr

/-- parse_mas_notice, with PDF text extraction replaced by its result
(`full_text`, the concatenated page text) and the basename as `filename`. -/
def parse_mas_notice (full_text : String) (filename : String) : Document :=
  { metadata := extract_metadata filename, content := parseNodes full_text filename }

/-! ### retriever.py: candidate data model -/

/-- Flattened metadata attached to an indexed item, as vector_storage.py wrote
it and as the retriever reads it back.  `parent_id` models
`metadata.get('parent_id')`: an absent key is `none`; a stored null was
coerced to the sentinel string `"None"`. -/
structure RMeta where
  notice_id : String
  node_type : String
  parent_id : Option String
deriving DecidableEq, Repr

/-- RetrievalCandidate: `{'metadata': ..., 'text': ...}`. -/
structure RDoc where
  metadata : RMeta
  text : String
deriving DecidableEq, Repr

/-- One row of a chroma result, pre-zipped:
`(ids[0][i], metadatas[0][i], documents[0][i])` of a query, or
`(ids[i], metadatas[i], documents[i])` of a get. -/
structure Hit where
  id : String
  metadata : RMeta
  document : String
deriving DecidableEq, Repr

/-! ### Retriever._expand_context -/

/-- Python dict assignment `m[k] = v` on an insertion-ordered dict: update in
place when the key is present, else append. -/
def dictInsert (m : List (String × RDoc)) (k : String) (v : RDoc) : List (String × RDoc) :=
  if m.any (fun p => p.1 == k) then m.map (fun p => if p.1 == k then (k, v) else p)
  else m ++ [(k, v)]

/-- First loop of _expand_context: the original hits keyed by id. -/
def hitsDict (hits : List Hit) : List (String × RDoc) :=
  hits.foldl (fun m h => dictInsert m h.id ⟨h.metadata, h.document⟩) []

/-- `parent_ids_to_fetch`: the truthy, non-"None" parent ids of the hits.  The
source keeps a Python set whose iteration order is unspecified; it is modelled
in first-seen order (the order handed to `get` is immaterial, `get`'s output
being the oracle). -/
def parentIdsToFetch (hits : List Hit) : List String :=
  hits.foldl
    (fun s h =>
      match h.metadata.parent_id with
      | none => s
      | some p => if p ≠ "" && p ≠ "None" && !(s.contains p) then s ++ [p] else s)
    []

/-- Second loop of _expand_context: fetched parents are added only when their
id is not already a key. -/
def addParents (m : List (String × RDoc)) (parents : List Hit) : List (String × RDoc) :=
  parents.foldl
    (fun m p =>
      if m.any (fun q => q.1 == p.id) then m
      else m ++ [(p.id, RDoc.mk p.metadata p.document)])
    m

/-- The rows `collection.get(ids=...)` returns inside _expand_context; the get
is skipped when the fetch set is empty.  `get` models the index, returning
rows in its own order. -/
def expandFetched (get : List String → List Hit) (hits : List Hit) : List Hit :=
  if (parentIdsToFetch hits).isEmpty then [] else get (parentIdsToFetch hits)

/-- The `expanded_docs` dict at the end of _expand_context. -/
def expandDict (get : List String → List Hit) (hits : List Hit) : List (String × RDoc) :=
  addParents (hitsDict hits) (expandFetched get hits)

/-- Retriever._expand_context: `list(expanded_docs.values())`. -/
def expand_context (get : List String → List Hit) (hits : List Hit) : List RDoc :=
  (expandDict get hits).map Prod.snd

/-! ### Retriever._rerank_with_gemini -/

def digitsToNat (l : List Char) : Nat :=
  l.foldl (fun n c => 10 * n + (c.toNat - '0'.toNat)) 0

/-- `int(re.search(r'\d+', s).group())`: the first maximal digit run of the
response text, as a number; `none` when the text has no digit (then
`.group()` raises inside the try and the except branch assigns 0). -/
def extractScore : List Char → Option Nat
  | [] => none
  | c :: cs =>
    if isDigitA c then some (digitsToNat ((c :: cs).takeWhile isDigitA))
    else extractScore cs

/-- The score the rerank loop assigns to candidate `i`: the generation
response is `oracle i` (`none` models the call raising); a missing or
digit-free response scores 0. -/
def scoreOf (oracle : Nat → Option String) (i : Nat) : Nat :=
  match oracle i with
  | none => 0
  | some resp =>
    match extractScore resp.data with
    | none => 0
    | some n => n

/-- An entry of `ranked_docs`, extended with the candidate's original
position, which pins down Python's stable sort. -/
structure Scored where
  doc : RDoc
  idx : Nat
  score : Nat
deriving DecidableEq, Repr

/-- Sort order of `ranked_docs.sort(key=lambda x: x['score'], reverse=True)`:
a stable descending sort by score is exactly the ordering by
(score descending, original position ascending), the unique sorted
permutation under this total order since original positions are distinct. -/
def rankLE (a b : Scored) : Prop :=
  b.score < a.score ∨ (a.score = b.score ∧ a.idx ≤ b.idx)

instance : DecidableRel rankLE := fun a b =>
  inferInstanceAs (Decidable (b.score < a.score ∨ (a.score = b.score ∧ a.idx ≤ b.idx)))

instance : IsTotal Scored rankLE :=
  ⟨by intro a b; unfold rankLE; omega⟩

instance : IsTrans Scored rankLE :=
  ⟨by intro a b c; unfold rankLE; omega⟩

/-- `ranked_docs` in loop order: every candidate scored, failures scored 0. -/
def scoredList (oracle : Nat → Option String) (docs : List RDoc) : List Scored :=
  (List.enumFrom 0 docs).map (fun p => ⟨p.2, p.1, scoreOf oracle p.1⟩)

/-- `ranked_docs` after the sort, before truncation. -/
def rankedDocs (oracle : Nat → Option String) (docs : List RDoc) : List Scored :=
  List.insertionSort rankLE (scoredList oracle docs)

/-- Retriever._rerank_with_gemini: score every candidate, stable-sort
descending by score, return the documents of the first `top_n` entries. -/
def rerank_with_gemini (oracle : Nat → Option String) (docs : List RDoc)
    (top_n : Nat) : List RDoc :=
  ((rankedDocs oracle docs).take top_n).map Scored.doc

/-! ### Retriever.full_retrieval -/

/-- The observable stage calls of one full_retrieval run, reified as a trace
(an expansion stage would appear as `expandEv`). -/
inductive Event
  | searchEv (hits : List Hit)
  | expandEv (docs : List RDoc)
  | rerankEv (input : List RDoc) (output : List RDoc)
  | synthEv (input : List RDoc) (answer : String)
deriving DecidableEq, Repr

/-- Retriever.full_retrieval with the external calls reified: `hits` is the
(zipped) `_search` result, `scoreOracle` the generation responses of the
rerank loop, `synth` the synthesis call.  The source builds `initial_docs`
directly from the search results and hands it to `_rerank_with_gemini`;
`_expand_context` is never invoked. -/
def full_retrieval (hits : List Hit) (scoreOracle : Nat → Option String)
    (synth : List RDoc → String) (top_n_rerank : Nat) : String × List Event :=
  if hits.isEmpty then ("Could not find any relevant documents.", [Event.searchEv hits])
  else
    let initial_docs := hits.map (fun h => RDoc.mk h.metadata h.document)
    let reranked_docs := rerank_with_gemini scoreOracle initial_docs top_n_rerank
    let final_answer := synth reranked_docs
    (final_answer,
      [Event.searchEv hits, Event.rerankEv initial_docs reranked_docs,
       Event.synthEv reranked_docs final_answer])

/-! ### enrichment.py -/

/-- A node as enrichment.py reads it from the structured JSON. -/
structure ENode where
  node_id : String
  node_type : String
  text : String
  parent_id : Option String
deriving DecidableEq, Repr

/-- Outcome of the per-node external calls inside the try block: the
generated summary, hypothetical question and the three embedding vectors
(vector payloads are opaque to the claims; `none` models any exception). -/
structure EnrichOut where
  summary : String
  hypothetical_question : String
  content_embedding : List Int
  summary_embedding : List Int
  question_embedding : List Int
deriving DecidableEq, Repr

structure RecordMeta where
  original_text : String
  summary : String
  hypothetical_question : String
  notice_id : String
  publication_date : String
  effective_date : String
  node_type : String
  parent_id : Option String
deriving DecidableEq, Repr

/-- The enriched node object appended by enrich_and_embed. -/
structure EnrichedRecord where
  id : String
  content : List Int
  summaryVec : List Int
  questionVec : List Int
  metadata : RecordMeta
deriving DecidableEq, Repr

def mkRecord (meta : DocMetadata) (n : ENode) (e : EnrichOut) : EnrichedRecord :=
  { id := n.node_id,
    content := e.content_embedding,
    summaryVec := e.summary_embedding,
    questionVec := e.question_embedding,
    metadata :=
      { original_text := n.text,
        summary := e.summary,
        hypothetical_question := e.hypothetical_question,
        notice_id := meta.notice_id,
        publication_date := meta.publication_date,
        effective_date := meta.effective_date,
        node_type := n.node_type,
        parent_id := n.parent_id } }

/-- The `for i, node in enumerate(data['content'])` loop from index `i`: an
empty-text node is skipped before any call; a raised per-node exception
(`outcome i = none`) skips that node and the loop continues. -/
def enrichFrom (outcome : Nat → Option EnrichOut) (meta : DocMetadata) :
    Nat → List ENode → List EnrichedRecord
  | _, [] => []
  | i, n :: ns =>
    if n.text = "" then enrichFrom outcome meta (i + 1) ns
    else
      match outcome i with
      | some e => mkRecord meta n e :: enrichFrom outcome meta (i + 1) ns
      | none => enrichFrom outcome meta (i + 1) ns

/-- enrich_and_embed on structured data `{metadata, content}`: the enriched
node list it writes out. -/
def enrich_and_embed (outcome : Nat → Option EnrichOut) (meta : DocMetadata)
    (content : List ENode) : List EnrichedRecord :=
  enrichFrom outcome meta 0 content

/-- Modelled from the spec sentence for C9 (the code's own loop is
enrich_and_embed above): records for exactly the non-empty-text nodes whose
calls succeed, in input order. -/
def enrichSpec (outcome : Nat → Option EnrichOut) (meta : DocMetadata)
    (content : List ENode) : List EnrichedRecord :=
  (List.enumFrom 0 content).filterMap
    (fun p => if p.2.text = "" then none else (outcome p.1).map (mkRecord meta p.2))

/-- Whether some line of the input, once stripped, matches either marker
pattern (the condition under which parse_mas_notice opens a node). -/
def hasMarkerLine (full_text : String) : Bool :=
  (splitNL full_text.data).any (fun l => isNewPara (pyStrip l) || isNewSubPara (pyStrip l))

/-! ## Theorems -/

/-- C6: on the input lines "1. First.", "(a) Sub.", "2. Second.", segmentation
yields exactly three nodes: a paragraph "1. First.", a sub-paragraph
"(a) Sub." whose parent_id equals the first node's id, and a paragraph
"2. Second." with null parent_id. -/
theorem c6_three_node_example :
    (parse_mas_notice "1. First.\n(a) Sub.\n2. Second." "x.pdf").content =
      [{ node_id := "node_1", node_type := NodeType.paragraph, text := "1. First.",
         parent_id := none, source_filename := "x.pdf" },
       { node_id := "node_2", node_type := NodeType.subParagraph, text := "(a) Sub.",
         parent_id := some "node_1", source_filename := "x.pdf" },
       { node_id := "node_3", node_type := NodeType.paragraph, text := "2. Second.",
         parent_id := none, source_filename := "x.pdf" }] := by
  decide

/-- C8: the fixture filename yields notice_id "MAS Notice 758",
publication_date "18 Dec 2024", effective_date "26 Dec 2024"; on any filename
the search pattern does not match, all three fields are "Unknown" (the
extraction is a total function: it never raises). -/
theorem c8_filename_metadata :
    extract_metadata "MAS Notice 758_dated 18 Dec 2024_effective 26 Dec 2024.pdf" =
      { notice_id := "MAS Notice 758", publication_date := "18 Dec 2024",
        effective_date := "26 Dec 2024" } ∧
    ∀ filename : String, searchMetaAux filename.data = none →
      extract_metadata filename =
        { notice_id := "Unknown", publication_date := "Unknown",
          effective_date := "Unknown" } := by
  refine ⟨by decide, ?_⟩
  intro filename h
  simp [extract_metadata, h]

/-- Witness for C8: a plain filename does not match the pattern and gets the
three "Unknown" fields. -/
theorem c8_filename_metadata_witness :
    searchMetaAux "some_other_circular.pdf".data = none ∧
    extract_metadata "some_other_circular.pdf" =
      { notice_id := "Unknown", publication_date := "Unknown",
        effective_date := "Unknown" } :=
  ⟨by decide, c8_filename_metadata.2 "some_other_circular.pdf" (by decide)⟩

/-- C4: when the vector search yields zero hits, full_retrieval returns the
fixed "Could not find any relevant documents." outcome, and its stage trace
holds only the search event: no rerank call and no synthesis call occur,
whatever the oracles and parameters. -/
theorem c4_empty_search_short_circuits :
    ∀ (scoreOracle : Nat → Option String) (synth : List RDoc → String) (top_n : Nat),
      (full_retrieval [] scoreOracle synth top_n).1 =
        "Could not find any relevant documents." ∧
      (full_retrieval [] scoreOracle synth top_n).2 = [Event.searchEv []] ∧
      (∀ inp out, Event.rerankEv inp out ∉ (full_retrieval [] scoreOracle synth top_n).2) ∧
      (∀ inp ans, Event.synthEv inp ans ∉ (full_retrieval [] scoreOracle synth top_n).2) := by
  intro scoreOracle synth top_n
  refine ⟨rfl, rfl, ?_, ?_⟩ <;> intro a b hmem <;> simp [full_retrieval] at hmem

/-- C1: on a non-empty search result the code hands the raw search hits to
reranking and emits no expansion stage (the trace is exactly
search-rerank-synthesize on `initial_docs`), while `_expand_context` on the
same hits would have merged in the fetched parent node; the candidate set
reranked is not the expanded set. -/
theorem c1_expansion_stage_skipped :
    (full_retrieval
        [⟨"node_2", ⟨"MAS Notice 758", "sub-paragraph", some "node_1"⟩, "(a) Sub."⟩]
        (fun _ => some "5") (fun _ => "ANSWER") 3).2 =
      [Event.searchEv
        [⟨"node_2", ⟨"MAS Notice 758", "sub-paragraph", some "node_1"⟩, "(a) Sub."⟩],
       Event.rerankEv
        [⟨⟨"MAS Notice 758", "sub-paragraph", some "node_1"⟩, "(a) Sub."⟩]
        [⟨⟨"MAS Notice 758", "sub-paragraph", some "node_1"⟩, "(a) Sub."⟩],
       Event.synthEv
        [⟨⟨"MAS Notice 758", "sub-paragraph", some "node_1"⟩, "(a) Sub."⟩] "ANSWER"] ∧
    expand_context
        (fun ids => if ids = ["node_1"] then
            [⟨"node_1", ⟨"MAS Notice 758", "paragraph", some "None"⟩, "1. First."⟩]
          else [])
        [⟨"node_2", ⟨"MAS Notice 758", "sub-paragraph", some "node_1"⟩, "(a) Sub."⟩] =
      [⟨⟨"MAS Notice 758", "sub-paragraph", some "node_1"⟩, "(a) Sub."⟩,
       ⟨⟨"MAS Notice 758", "paragraph", some "None"⟩, "1. First."⟩] ∧
    ([⟨⟨"MAS Notice 758", "sub-paragraph", some "node_1"⟩, "(a) Sub."⟩] : List RDoc) ≠
      [⟨⟨"MAS Notice 758", "sub-paragraph", some "node_1"⟩, "(a) Sub."⟩,
       ⟨⟨"MAS Notice 758", "paragraph", some "None"⟩, "1. First."⟩] := by
  refine ⟨by decide, by decide, by decide⟩

/-- The line loop never creates a node when no stripped line matches a marker
pattern: the node list stays empty. -/
theorem foldl_processLine_no_marker (filename : String) :
    ∀ (lines : List (List Char)) (st : ParseState),
      (∀ l ∈ lines, isNewPara (pyStrip l) = false ∧ isNewSubPara (pyStrip l) = false) →
      st.nodes = [] → (lines.foldl (processLine filename) st).nodes = [] := by
  intro lines
  induction lines with
  | nil => intro st _ h0; simpa using h0
  | cons l ls ih =>
    intro st hml h0
    have hl := hml l (List.mem_cons_self l ls)
    have hstep : (processLine filename st l).nodes = [] := by
      unfold processLine
      by_cases he : (pyStrip l).isEmpty
      · simp [he, h0]
      · simp [he, hl.1, hl.2, h0]
    exact ih (processLine filename st l)
      (fun x hx => hml x (List.mem_cons_of_mem l hx)) hstep

/-- C5: segmentation always returns at least one node; when no marker line
ever matches, it returns exactly one full_text node holding the whole
whitespace-normalized input. -/
theorem c5_nonempty_and_fallback :
    ∀ (full_text filename : String),
      (parse_mas_notice full_text filename).content ≠ [] ∧
      (hasMarkerLine full_text = false →
        (parse_mas_notice full_text filename).content =
          [{ node_id := "node_1", node_type := NodeType.fullText,
             text := pyNormalize full_text, parent_id := none,
             source_filename := filename }]) := by
  intro full_text filename
  constructor
  · show parseNodes full_text filename ≠ []
    unfold parseNodes
    set ns := mapLast (fun n => { n with text := pyNormalize n.text })
      ((splitNL full_text.data).foldl (processLine filename) ⟨[], 1, none⟩).nodes with hns
    by_cases h : ns.isEmpty
    · simp [h]
    · simp only [h, if_false]
      simpa [List.isEmpty_iff] using h
  · intro hnm
    show parseNodes full_text filename = _
    have hml : ∀ l ∈ splitNL full_text.data,
        isNewPara (pyStrip l) = false ∧ isNewSubPara (pyStrip l) = false := by
      intro l hl
      have := List.any_eq_false.mp hnm l hl
      constructor <;> [skip; skip] <;>
        simp only [Bool.or_eq_true] at this <;>
        [exact Bool.eq_false_iff.mpr (fun hh => this (Or.inl hh));
         exact Bool.eq_false_iff.mpr (fun hh => this (Or.inr hh))]
    have h0 : ((splitNL full_text.data).foldl (processLine filename) ⟨[], 1, none⟩).nodes = [] :=
      foldl_processLine_no_marker filename _ _ hml rfl
    unfold parseNodes
    simp [h0, mapLast]

/-- Witness for C5: a marker-free input yields the single full_text fallback
node. -/
theorem c5_nonempty_and_fallback_witness :
    hasMarkerLine "just some plain prose" = false ∧
    (parse_mas_notice "just some plain prose" "w.pdf").content =
      [{ node_id := "node_1", node_type := NodeType.fullText,
         text := pyNormalize "just some plain prose", parent_id := none,
         source_filename := "w.pdf" }] :=
  ⟨by decide, (c5_nonempty_and_fallback "just some plain prose" "w.pdf").2 (by decide)⟩

/-- Rerank fixture: candidate 0 scores 10 (the top of the valid range),
candidate 1 gets the response "100". -/
def c10Oracle : Nat → Option String := fun i => if i = 0 then some "10" else some "100"

def c10Docs : List RDoc :=
  [⟨⟨"N1", "paragraph", some "None"⟩, "alpha"⟩,
   ⟨⟨"N2", "paragraph", some "None"⟩, "beta"⟩]

/-- C10: the assigned score is the first integer literal found anywhere in the
response text, with no validation against [1,10]: a raised call scores 0, the
response "100" scores 100 (outside [1,10]), and in the sorted rerank output a
score-100 candidate always precedes every candidate whose score lies in
[1,10] — concretely, the "100" candidate outranks the score-10 one. -/
theorem c10_first_integer_unvalidated :
    (∀ resp : String, scoreOf (fun _ => some resp) 0 = (extractScore resp.data).getD 0) ∧
    (∀ i : Nat, scoreOf (fun _ => none) i = 0) ∧
    extractScore "I would rate this 7 out of 10".data = some 7 ∧
    extractScore "100".data = some 100 ∧
    ¬(1 ≤ (100 : Nat) ∧ (100 : Nat) ≤ 10) ∧
    rerank_with_gemini c10Oracle c10Docs 2 =
      [⟨⟨"N2", "paragraph", some "None"⟩, "beta"⟩,
       ⟨⟨"N1", "paragraph", some "None"⟩, "alpha"⟩] ∧
    (∀ (oracle : Nat → Option String) (docs : List RDoc) (i j : Nat)
        (hi : i < (rankedDocs oracle docs).length)
        (hj : j < (rankedDocs oracle docs).length),
      ((rankedDocs oracle docs).get ⟨i, hi⟩).score = 100 →
      1 ≤ ((rankedDocs oracle docs).get ⟨j, hj⟩).score →
      ((rankedDocs oracle docs).get ⟨j, hj⟩).score ≤ 10 →
      i < j) := by
  refine ⟨?_, ?_, by decide, by decide, by decide, by decide, ?_⟩
  · intro resp
    cases h : extractScore resp.data <;> simp [scoreOf, h]
  · intro i; rfl
  · intro oracle docs i j hi hj h100 h1 h10
    have hs : List.Pairwise rankLE (rankedDocs oracle docs) :=
      List.sorted_insertionSort rankLE (scoredList oracle docs)
    rcases Nat.lt_trichotomy i j with h | h | h
    · exact h
    · subst h; omega
    · exfalso
      have := (List.pairwise_iff_get.mp hs) ⟨j, hj⟩ ⟨i, hi⟩ h
      unfold rankLE at this
      omega

/-- Witness for C10: on the fixture, the score-100 candidate sits at
position 0 and the score-10 candidate at position 1 of the sorted output. -/
theorem c10_first_integer_unvalidated_witness :
    (rankedDocs c10Oracle c10Docs).length = 2 ∧ (0 : Nat) < 1 :=
  ⟨by decide,
   c10_first_integer_unvalidated.2.2.2.2.2.2 c10Oracle c10Docs 0 1
     (by decide) (by decide) (by decide) (by decide) (by decide)⟩

theorem scoredList_map_doc (oracle : Nat → Option String) (docs : List RDoc) :
    (scoredList oracle docs).map Scored.doc = docs := by
  unfold scoredList
  rw [List.map_map]
  exact List.enumFrom_map_snd 0 docs

theorem scoredList_map_idx (oracle : Nat → Option String) (docs : List RDoc) :
    (scoredList oracle docs).map Scored.idx = List.range' 0 docs.length := by
  unfold scoredList
  rw [List.map_map]
  exact List.enumFrom_map_fst 0 docs

/-- Stability of the rerank sort: among candidates of one score, the sorted
list keeps exactly the original loop order. -/
theorem rankedDocs_stable (oracle : Nat → Option String) (docs : List RDoc) :
    ∀ s : Nat, (rankedDocs oracle docs).filter (fun x => x.score == s) =
      (scoredList oracle docs).filter (fun x => x.score == s) := by
  intro s
  have hperm : (rankedDocs oracle docs).Perm (scoredList oracle docs) :=
    List.perm_insertionSort _ _
  have hnd : ((scoredList oracle docs).map Scored.idx).Nodup := by
    rw [scoredList_map_idx]
    exact List.nodup_range' 0 docs.length
  have hnd' : ((rankedDocs oracle docs).map Scored.idx).Nodup :=
    ((hperm.map Scored.idx).nodup_iff).mpr hnd
  have hplt : (scoredList oracle docs).Pairwise (fun a b => a.idx < b.idx) := by
    have h := List.pairwise_lt_range' 0 docs.length
    rw [← scoredList_map_idx oracle docs] at h
    exact List.pairwise_map.mp h
  have h1 : ((scoredList oracle docs).filter (fun x => x.score == s)).Pairwise
      (fun a b => a.idx < b.idx) := hplt.filter _
  have hs : (rankedDocs oracle docs).Pairwise rankLE :=
    List.sorted_insertionSort rankLE (scoredList oracle docs)
  have hne : (rankedDocs oracle docs).Pairwise (fun a b => a.idx ≠ b.idx) :=
    List.pairwise_map.mp hnd'
  have h2' := (hs.and hne).filter (fun x => x.score == s)
  have h2 : ((rankedDocs oracle docs).filter (fun x => x.score == s)).Pairwise
      (fun a b => a.idx < b.idx) := by
    refine List.Pairwise.imp_of_mem ?_ h2'
    intro a b ha hb hab
    have has : a.score = s := by
      have := (List.mem_filter.mp ha).2
      simpa using this
    have hbs : b.score = s := by
      have := (List.mem_filter.mp hb).2
      simpa using this
    rcases hab with ⟨hr, hij⟩
    unfold rankLE at hr
    omega
  haveI : IsAntisymm Scored (fun a b => a.idx < b.idx) :=
    ⟨fun a b ha hb => absurd hb (Nat.lt_asymm ha)⟩
  exact List.eq_of_perm_of_sorted (hperm.filter _) h2 h1

/-- C2: reranking is total, size-exact, sorted and stable: the scored list is
a permutation of the input candidates (each appears exactly once, failures
scored 0 included), the output has length min(top_n, input size), scores are
descending, and candidates of equal score keep their original order. -/
theorem c2_rerank_total_sorted_stable :
    ∀ (oracle : Nat → Option String) (docs : List RDoc),
      ((rankedDocs oracle docs).map Scored.doc).Perm docs ∧
      (∀ top_n, (rerank_with_gemini oracle docs top_n).length = min top_n docs.length) ∧
      (rankedDocs oracle docs).Pairwise (fun a b => b.score ≤ a.score) ∧
      (∀ s, (rankedDocs oracle docs).filter (fun x => x.score == s) =
            (scoredList oracle docs).filter (fun x => x.score == s)) := by
  intro oracle docs
  refine ⟨?_, ?_, ?_, rankedDocs_stable oracle docs⟩
  · have h := (List.perm_insertionSort rankLE (scoredList oracle docs)).map Scored.doc
    rwa [scoredList_map_doc] at h
  · intro top_n
    have hlen : (rankedDocs oracle docs).length = docs.length := by
      rw [show (rankedDocs oracle docs).length = (scoredList oracle docs).length from
        (List.perm_insertionSort rankLE (scoredList oracle docs)).length_eq]
      simp [scoredList, List.enumFrom_length]
    simp [rerank_with_gemini, List.length_take, hlen]
  · exact List.Pairwise.imp
      (fun hab => by unfold rankLE at hab; omega)
      (List.sorted_insertionSort rankLE (scoredList oracle docs))

/-- The enrichment loop from index `i` equals the spec-side filterMap over
the enumerated remaining nodes. -/
theorem enrichFrom_eq_spec (outcome : Nat → Option EnrichOut) (meta : DocMetadata) :
    ∀ (i : Nat) (ns : List ENode),
      enrichFrom outcome meta i ns = (List.enumFrom i ns).filterMap
        (fun p => if p.2.text = "" then none else (outcome p.1).map (mkRecord meta p.2)) := by
  intro i ns
  induction ns generalizing i with
  | nil => simp [enrichFrom]
  | cons n ns ih =>
    rw [List.enumFrom_cons, List.filterMap_cons]
    by_cases h : n.text = ""
    · simp [enrichFrom, h, ih]
    · cases ho : outcome i <;> simp [enrichFrom, h, ho, ih]

/-- C9: enrichment produces records for exactly the nodes with non-empty text
whose external calls succeed, in input order: an empty-text node never yields
a record, and a per-node failure skips only that node, the rest of the list
being processed unchanged. -/
theorem c9_enrichment_skips_exactly :
    ∀ (outcome : Nat → Option EnrichOut) (meta : DocMetadata) (content : List ENode),
      enrich_and_embed outcome meta content = enrichSpec outcome meta content := by
  intro outcome meta content
  exact enrichFrom_eq_spec outcome meta 0 content

/-- Appending entries never disturbs a key already present: lookup stays the
first (existing) binding. -/
theorem lookup_append_of_any {m m2 : List (String × RDoc)} {k : String}
    (h : m.any (fun p => p.1 == k) = true) : (m ++ m2).lookup k = m.lookup k := by
  induction m with
  | nil => simp at h
  | cons a as ih =>
    rcases a with ⟨ka, va⟩
    by_cases hka : ka = k
    · subst hka
      simp [List.lookup_cons]
    · have h1 : (ka == k) = false := beq_eq_false_iff_ne.mpr hka
      have h2 : (k == ka) = false := beq_eq_false_iff_ne.mpr (Ne.symm hka)
      simp only [List.any_cons, h1, Bool.false_or] at h
      simp [List.lookup_cons, h2, ih h]

/-- The parent-adding loop of _expand_context never touches an id already
present: key membership, its first binding and its multiplicity persist. -/
theorem addParents_preserves :
    ∀ (parents : List Hit) (m : List (String × RDoc)) (k : String),
      m.any (fun p => p.1 == k) = true →
      (addParents m parents).any (fun p => p.1 == k) = true ∧
      (addParents m parents).lookup k = m.lookup k ∧
      (addParents m parents).countP (fun p => p.1 == k) = m.countP (fun p => p.1 == k) := by
  intro parents
  induction parents with
  | nil => intro m k h; exact ⟨h, rfl, rfl⟩
  | cons p ps ih =>
    intro m k h
    by_cases hp : m.any (fun q => q.1 == p.id) = true
    · have hstep : addParents m (p :: ps) = addParents m ps := by
        simp [addParents, List.foldl_cons, hp]
      rw [hstep]
      exact ih m k h
    · have hne : (p.id == k) = false := by
        refine beq_eq_false_iff_ne.mpr ?_
        intro he
        rw [he] at hp
        exact hp h
      have hstep : addParents m (p :: ps) =
          addParents (m ++ [(p.id, RDoc.mk p.metadata p.document)]) ps := by
        simp [addParents, List.foldl_cons, hp]
      have hany : (m ++ [(p.id, RDoc.mk p.metadata p.document)]).any
          (fun q => q.1 == k) = true := by
        simp [List.any_append, h]
      obtain ⟨ha, hl, hc⟩ := ih (m ++ [(p.id, RDoc.mk p.metadata p.document)]) k hany
      rw [hstep]
      refine ⟨ha, ?_, ?_⟩
      · rw [hl, lookup_append_of_any h]
      · rw [hc, List.countP_append]
        simp [hne]

/-- With pairwise-distinct hit ids every dict assignment of the first
_expand_context loop is a fresh append. -/
theorem foldl_dictInsert_nodup :
    ∀ (hits : List Hit) (acc : List (String × RDoc)),
      (hits.map Hit.id).Nodup →
      (∀ h ∈ hits, acc.any (fun p => p.1 == h.id) = false) →
      hits.foldl (fun m h => dictInsert m h.id (RDoc.mk h.metadata h.document)) acc =
        acc ++ hits.map (fun h => (h.id, RDoc.mk h.metadata h.document)) := by
  intro hits
  induction hits with
  | nil => intro acc _ _; simp
  | cons h hs ih =>
    intro acc hnd hfresh
    rw [List.map_cons] at hnd
    have hno := hfresh h (List.mem_cons_self h hs)
    have hins : dictInsert acc h.id (RDoc.mk h.metadata h.document) =
        acc ++ [(h.id, RDoc.mk h.metadata h.document)] := by
      unfold dictInsert
      rw [hno]
      simp
    simp only [List.foldl_cons, List.map_cons, hins]
    rw [ih (acc ++ [(h.id, RDoc.mk h.metadata h.document)])
        (List.nodup_cons.mp hnd).2 ?fresh]
    · rw [List.append_assoc]
      rfl
    case fresh =>
      intro x hx
      have hxne : (h.id == x.id) = false := by
        refine beq_eq_false_iff_ne.mpr ?_
        intro he
        have hx' : x.id ∈ hs.map Hit.id := List.mem_map_of_mem Hit.id hx
        rw [← he] at hx'
        exact (List.nodup_cons.mp hnd).1 hx'
      simp [List.any_append, hfresh x (List.mem_cons_of_mem h hx), hxne]

theorem hitsDict_eq (hits : List Hit) (hnd : (hits.map Hit.id).Nodup) :
    hitsDict hits = hits.map (fun h => (h.id, RDoc.mk h.metadata h.document)) := by
  simpa using foldl_dictInsert_nodup hits [] hnd (by simp)

/-- First binding of an id in the hit dict is the hit's own data. -/
theorem lookup_map_of_nodup :
    ∀ (hits : List Hit) (h : Hit), h ∈ hits → (hits.map Hit.id).Nodup →
      (hits.map (fun x => (x.id, RDoc.mk x.metadata x.document))).lookup h.id =
        some (RDoc.mk h.metadata h.document) := by
  intro hits
  induction hits with
  | nil => intro h hmem; cases hmem
  | cons a as ih =>
    intro h hmem hnd
    rw [List.map_cons] at hnd
    simp only [List.map_cons, List.lookup_cons]
    by_cases hak : h.id = a.id
    · have hea : h = a := by
        rcases List.mem_cons.mp hmem with he | hin
        · exact he
        · exfalso
          apply (List.nodup_cons.mp hnd).1
          rw [← hak]
          exact List.mem_map_of_mem Hit.id hin
      subst hea
      simp
    · have hfalse : (h.id == a.id) = false := beq_eq_false_iff_ne.mpr hak
      simp only [hfalse]
      have hin : h ∈ as := by
        rcases List.mem_cons.mp hmem with he | hin
        · exact absurd (congrArg Hit.id he) hak
        · exact hin
      exact ih h hin (List.nodup_cons.mp hnd).2

/-- C7: the expansion merge is a deduplicated union keyed by id: an id present
both among the hits and among the fetched parents keeps exactly one entry,
bound to the original hit's already-attached metadata and text (not the
re-fetched data), and _expand_context returns the dict's values. -/
theorem c7_expand_merge_dedup :
    ∀ (hits : List Hit) (get : List String → List Hit) (h : Hit),
      h ∈ hits →
      (hits.map Hit.id).Nodup →
      h.id ∈ (expandFetched get hits).map Hit.id →
      (expandDict get hits).countP (fun p => p.1 == h.id) = 1 ∧
      (expandDict get hits).lookup h.id = some (RDoc.mk h.metadata h.document) ∧
      expand_context get hits = (expandDict get hits).map Prod.snd := by
  intro hits get h hmem hnd hfetch
  have hd := hitsDict_eq hits hnd
  have hany : (hitsDict hits).any (fun p => p.1 == h.id) = true := by
    rw [hd]
    exact List.any_eq_true.mpr ⟨_, List.mem_map_of_mem _ hmem, by simp⟩
  obtain ⟨ha, hl, hc⟩ := addParents_preserves (expandFetched get hits) (hitsDict hits) h.id hany
  refine ⟨?_, ?_, rfl⟩
  · show (addParents (hitsDict hits) (expandFetched get hits)).countP _ = 1
    rw [hc, hd, List.countP_map]
    have hmem' : h.id ∈ hits.map Hit.id := List.mem_map_of_mem _ hmem
    have hone := List.count_eq_one_of_mem hnd hmem'
    rw [List.count_eq_countP, List.countP_map] at hone
    exact hone
  · show (addParents (hitsDict hits) (expandFetched get hits)).lookup h.id = _
    rw [hl, hd]
    exact lookup_map_of_nodup hits h hmem hnd

def c7Hits : List Hit :=
  [⟨"node_2", ⟨"N", "sub-paragraph", some "node_1"⟩, "child text"⟩,
   ⟨"node_1", ⟨"N", "paragraph", some "None"⟩, "original"⟩]

def c7Get : List String → List Hit := fun ids =>
  if ids = ["node_1"] then [⟨"node_1", ⟨"N", "paragraph", some "None"⟩, "refetched"⟩] else []

def c7Parent : Hit := ⟨"node_1", ⟨"N", "paragraph", some "None"⟩, "original"⟩

/-- Witness for C7: node_1 is both a hit and a fetched parent; the merged dict
keeps it once, with the original hit's text, not the re-fetched one. -/
theorem c7_expand_merge_dedup_witness :
    (expandDict c7Get c7Hits).countP (fun p => p.1 == "node_1") = 1 ∧
    (expandDict c7Get c7Hits).lookup "node_1" =
      some (RDoc.mk ⟨"N", "paragraph", some "None"⟩ "original") ∧
    expand_context c7Get c7Hits = (expandDict c7Get c7Hits).map Prod.snd :=
  c7_expand_merge_dedup c7Hits c7Get c7Parent (by decide) (by decide) (by decide)

/-! ### Parent invariant of the segmenter (C3) -/

/-- A top-level marker line starts with a digit. -/
theorem isNewPara_head_digit (a : Char) (t : List Char)
    (h : isNewPara (a :: t) = true) : isDigitA a = true := by
  by_contra hna
  rw [Bool.not_eq_true] at hna
  simp [isNewPara, List.span, List.span.loop, hna] at h

/-- The two marker patterns are mutually exclusive: a top-level marker line
starts with a digit, a sub-marker line with a parenthesis. -/
theorem isNewPara_isNewSubPara_disjoint (l : List Char)
    (hp : isNewPara l = true) : isNewSubPara l = false := by
  cases l with
  | nil => simp [isNewPara, List.span, List.span.loop] at hp
  | cons a t =>
    have ha := isNewPara_head_digit a t hp
    have hne : (a == '(') = false := by
      refine beq_eq_false_iff_ne.mpr ?_
      intro he
      rw [he] at ha
      exact absurd ha (by decide)
    cases t with
    | nil => rfl
    | cons c t2 =>
      cases t2 with
      | nil => rfl
      | cons b t3 =>
        cases t3 with
        | nil => rfl
        | cons d t4 => simp [isNewSubPara, hne]

/-- The identification data of a node: id, type and parent reference — the
fields the parent invariant speaks about, all untouched by text updates. -/
def nodeSkel (n : Node) : String × NodeType × Option String :=
  (n.node_id, n.node_type, n.parent_id)

def skel (ns : List Node) : List (String × NodeType × Option String) :=
  ns.map nodeSkel

/-- Every non-null parent reference points to a strictly earlier paragraph. -/
def EPSkel (sk : List (String × NodeType × Option String)) : Prop :=
  ∀ (i : Nat) (hi : i < sk.length) (pid : String),
    (sk.get ⟨i, hi⟩).2.2 = some pid →
    ∃ (j : Nat) (hj : j < sk.length), j < i ∧
      (sk.get ⟨j, hj⟩).1 = pid ∧ (sk.get ⟨j, hj⟩).2.1 = NodeType.paragraph

/-- Only sub-paragraph nodes carry a parent reference. -/
def SPSkel (sk : List (String × NodeType × Option String)) : Prop :=
  ∀ (i : Nat) (hi : i < sk.length),
    (sk.get ⟨i, hi⟩).2.1 ≠ NodeType.subParagraph → (sk.get ⟨i, hi⟩).2.2 = none

/-- `last_top_level_node`, when set, names a paragraph node of the list. -/
def LTSkel (sk : List (String × NodeType × Option String)) (lt : Option String) : Prop :=
  ∀ t, lt = some t → ∃ (j : Nat) (hj : j < sk.length),
    (sk.get ⟨j, hj⟩).1 = t ∧ (sk.get ⟨j, hj⟩).2.1 = NodeType.paragraph

def Inv (st : ParseState) : Prop :=
  EPSkel (skel st.nodes) ∧ SPSkel (skel st.nodes) ∧ LTSkel (skel st.nodes) st.last_top_level

/-- A text-only node update leaves the identification data of the list
untouched, wherever in the list it lands. -/
theorem mapLast_map_proj {β : Type} (g : Node → β) (f : Node → Node)
    (hf : ∀ n, g (f n) = g n) : ∀ ns : List Node, (mapLast f ns).map g = ns.map g := by
  intro ns
  induction ns with
  | nil => rfl
  | cons n t ih =>
    cases t with
    | nil => simp [mapLast, hf]
    | cons m ms => simpa [mapLast] using ih

theorem skel_mapLast_normalize (ns : List Node) :
    skel (mapLast (fun n => { n with text := pyNormalize n.text }) ns) = skel ns :=
  mapLast_map_proj nodeSkel (fun n => { n with text := pyNormalize n.text }) (fun _ => rfl) ns

theorem skel_mapLast_append (line : List Char) (ns : List Node) :
    skel (mapLast (fun n => { n with text := n.text ++ " " ++ String.mk line }) ns) = skel ns :=
  mapLast_map_proj nodeSkel (fun n => { n with text := n.text ++ " " ++ String.mk line })
    (fun _ => rfl) ns

theorem skel_append (ns : List Node) (n : Node) :
    skel (ns ++ [n]) = skel ns ++ [nodeSkel n] := by
  simp [skel]

theorem EPSkel_append (sk : List (String × NodeType × Option String))
    (x : String × NodeType × Option String) (h : EPSkel sk)
    (hx : x.2.2 = none ∨ ∃ pid, x.2.2 = some pid ∧
      ∃ (j : Nat) (hj : j < sk.length),
        (sk.get ⟨j, hj⟩).1 = pid ∧ (sk.get ⟨j, hj⟩).2.1 = NodeType.paragraph) :
    EPSkel (sk ++ [x]) := by
  intro i hi pid hp
  have hi' := hi
  rw [List.length_append] at hi'
  by_cases hlt : i < sk.length
  · rw [List.get_append i hlt] at hp
    obtain ⟨j, hj, hji, h1, h2⟩ := h i hlt pid hp
    refine ⟨j, by rw [List.length_append]; omega, hji, ?_, ?_⟩ <;>
      rw [List.get_append j hj] <;> assumption
  · have hieq : i = sk.length := by simp at hi'; omega
    have hget : (sk ++ [x]).get ⟨i, hi⟩ = x :=
      List.get_last (show ¬ i < sk.length by omega)
    rw [hget] at hp
    rcases hx with hnone | ⟨pid', hp', j, hj, h1, h2⟩
    · rw [hnone] at hp; cases hp
    · rw [hp'] at hp
      injection hp with hpp
      subst hpp
      refine ⟨j, by rw [List.length_append]; omega, by omega, ?_, ?_⟩ <;>
        rw [List.get_append j hj] <;> assumption

theorem SPSkel_append (sk : List (String × NodeType × Option String))
    (x : String × NodeType × Option String) (h : SPSkel sk)
    (hx : x.2.1 ≠ NodeType.subParagraph → x.2.2 = none) :
    SPSkel (sk ++ [x]) := by
  intro i hi hty
  have hi' := hi
  rw [List.length_append] at hi'
  by_cases hlt : i < sk.length
  · rw [List.get_append i hlt] at hty ⊢
    exact h i hlt hty
  · have hget : (sk ++ [x]).get ⟨i, hi⟩ = x :=
      List.get_last (show ¬ i < sk.length by omega)
    rw [hget] at hty ⊢
    exact hx hty

theorem LTSkel_append (sk : List (String × NodeType × Option String))
    (x : String × NodeType × Option String) (lt : Option String)
    (h : LTSkel sk lt) : LTSkel (sk ++ [x]) lt := by
  intro t ht
  obtain ⟨j, hj, h1, h2⟩ := h t ht
  refine ⟨j, by rw [List.length_append]; omega, ?_, ?_⟩ <;>
    rw [List.get_append j hj] <;> assumption

theorem LTSkel_new (sk : List (String × NodeType × Option String))
    (x : String × NodeType × Option String) (hty : x.2.1 = NodeType.paragraph) :
    LTSkel (sk ++ [x]) (some x.1) := by
  intro t ht
  injection ht with hteq
  subst hteq
  have hlen : sk.length < (sk ++ [x]).length := by
    rw [List.length_append, List.length_singleton]
    omega
  have hlast : (sk ++ [x]).get ⟨sk.length, hlen⟩ = x :=
    List.get_last (fun hcon => Nat.lt_irrefl sk.length hcon)
  refine ⟨sk.length, hlen, ?_, ?_⟩
  · rw [hlast]
  · rw [hlast]
    exact hty

/-- One loop iteration preserves the parent invariant. -/
theorem processLine_inv (filename : String) (st : ParseState) (l : List Char)
    (h : Inv st) : Inv (processLine filename st l) := by
  unfold processLine
  by_cases he : (pyStrip l).isEmpty
  · simpa [he] using h
  · rw [if_neg (by simp [he])]
    by_cases hm : (isNewPara (pyStrip l) || isNewSubPara (pyStrip l)) = true
    · rw [if_pos hm]
      obtain ⟨hE, hS, hL⟩ := h
      set lp := pyStrip l with hlp
      set sp := isNewSubPara lp with hsp
      set np := isNewPara lp with hnp
      set nid := "node_" ++ toString st.node_counter with hnid
      set par := if sp = true then st.last_top_level else none with hpar
      set nty := if sp = true then NodeType.subParagraph else NodeType.paragraph with hnty
      have hx1 : par = none ∨ ∃ pid, par = some pid ∧
          ∃ (j : Nat) (hj : j < (skel st.nodes).length),
            ((skel st.nodes).get ⟨j, hj⟩).1 = pid ∧
            ((skel st.nodes).get ⟨j, hj⟩).2.1 = NodeType.paragraph := by
        rw [hpar]
        by_cases hs : sp = true
        · rw [if_pos hs]
          cases hlast : st.last_top_level with
          | none => exact Or.inl rfl
          | some t => exact Or.inr ⟨t, rfl, hL t hlast⟩
        · rw [if_neg hs]
          exact Or.inl rfl
      have hx2 : nty ≠ NodeType.subParagraph → par = none := by
        intro hty
        rw [hpar]
        by_cases hs : sp = true
        · exfalso
          apply hty
          rw [hnty, if_pos hs]
        · rw [if_neg hs]
      refine ⟨?_, ?_, ?_⟩
      · rw [skel_append, skel_mapLast_normalize]
        exact EPSkel_append _ _ hE hx1
      · rw [skel_append, skel_mapLast_normalize]
        exact SPSkel_append _ _ hS hx2
      · rw [skel_append, skel_mapLast_normalize]
        show LTSkel _ (if np = true then some nid else st.last_top_level)
        by_cases hn : np = true
        · rw [if_pos hn]
          have hsf : sp = false := hsp.trans (isNewPara_isNewSubPara_disjoint lp (hnp ▸ hn))
          have hpara : nty = NodeType.paragraph := by
            rw [hnty, hsf]
            rfl
          exact LTSkel_new _ _ hpara
        · rw [if_neg hn]
          exact LTSkel_append _ _ _ hL
    · rw [if_neg hm]
      by_cases hn : st.nodes.isEmpty
      · simpa [hn] using h
      · rw [if_neg (by simp [hn])]
        obtain ⟨hE, hS, hL⟩ := h
        have hskel : skel (mapLast
            (fun n => { n with text := n.text ++ " " ++ String.mk (pyStrip l) }) st.nodes) =
            skel st.nodes := skel_mapLast_append _ _
        exact ⟨by rw [hskel]; exact hE, by rw [hskel]; exact hS, by rw [hskel]; exact hL⟩

/-- The whole line loop preserves the parent invariant. -/
theorem foldl_processLine_inv (filename : String) :
    ∀ (lines : List (List Char)) (st : ParseState),
      Inv st → Inv (lines.foldl (processLine filename) st) := by
  intro lines
  induction lines with
  | nil => intro st h; exact h
  | cons l ls ih =>
    intro st h
    exact ih (processLine filename st l) (processLine_inv filename st l h)

theorem Inv_init : Inv ⟨[], 1, none⟩ := by
  refine ⟨?_, ?_, ?_⟩
  · intro i hi; simp [skel] at hi
  · intro i hi; simp [skel] at hi
  · intro t ht; cases ht

/-- The parent invariant holds for the node list parse_mas_notice emits. -/
theorem parseNodes_inv (full_text filename : String) :
    EPSkel (skel (parseNodes full_text filename)) ∧
    SPSkel (skel (parseNodes full_text filename)) := by
  unfold parseNodes
  have hinv := foldl_processLine_inv filename (splitNL full_text.data) ⟨[], 1, none⟩ Inv_init
  set st := (splitNL full_text.data).foldl (processLine filename) ⟨[], 1, none⟩ with hst
  set ns := mapLast (fun n => { n with text := pyNormalize n.text }) st.nodes with hns
  have hskel : skel ns = skel st.nodes := skel_mapLast_normalize st.nodes
  by_cases hempty : ns.isEmpty
  · rw [if_pos hempty]
    constructor
    · intro i hi pid hp
      have : i = 0 := by simp [skel] at hi; omega
      subst this
      simp [skel, nodeSkel] at hp
    · intro i hi _
      have : i = 0 := by simp [skel] at hi; omega
      subst this
      simp [skel, nodeSkel]
  · rw [if_neg hempty]
    rw [hskel]
    exact ⟨hinv.1, hinv.2.1⟩

/-- C3: in every Document produced by segmentation, each sub_paragraph node
with a non-null parent_id references a node that exists in the same Document,
has type paragraph, and appears strictly earlier; paragraph and full_text
nodes always have null parent_id. -/
theorem c3_parent_refs_earlier_paragraph :
    ∀ (full_text filename : String),
      (∀ (i : Nat) (hi : i < (parse_mas_notice full_text filename).content.length) (pid : String),
        ((parse_mas_notice full_text filename).content.get ⟨i, hi⟩).node_type = NodeType.subParagraph →
        ((parse_mas_notice full_text filename).content.get ⟨i, hi⟩).parent_id = some pid →
        ∃ (j : Nat) (hj : j < (parse_mas_notice full_text filename).content.length),
          j < i ∧
          ((parse_mas_notice full_text filename).content.get ⟨j, hj⟩).node_id = pid ∧
          ((parse_mas_notice full_text filename).content.get ⟨j, hj⟩).node_type = NodeType.paragraph) ∧
      (∀ (i : Nat) (hi : i < (parse_mas_notice full_text filename).content.length),
        ((parse_mas_notice full_text filename).content.get ⟨i, hi⟩).node_type ≠ NodeType.subParagraph →
        ((parse_mas_notice full_text filename).content.get ⟨i, hi⟩).parent_id = none) := by
  intro full_text filename
  obtain ⟨hE, hS⟩ := parseNodes_inv full_text filename
  have hc : (parse_mas_notice full_text filename).content = parseNodes full_text filename := rfl
  set c := parseNodes full_text filename with hcdef
  have hlen : (skel c).length = c.length := List.length_map _ _
  have hget : ∀ (i : Nat) (hi : i < c.length),
      (skel c).get ⟨i, by rw [hlen]; exact hi⟩ = nodeSkel (c.get ⟨i, hi⟩) := by
    intro i hi
    exact List.get_map nodeSkel
  rw [hc]
  constructor
  · intro i hi pid _ hp
    have hp' : ((skel c).get ⟨i, by rw [hlen]; exact hi⟩).2.2 = some pid := by
      rw [hget i hi]; exact hp
    obtain ⟨j, hj, hji, h1, h2⟩ := hE i (by rw [hlen]; exact hi) pid hp'
    have hj' : j < c.length := by rw [← hlen]; exact hj
    rw [show (⟨j, hj⟩ : Fin (skel c).length) = ⟨j, by rw [hlen]; exact hj'⟩ from rfl, hget j hj'] at h1 h2
    exact ⟨j, hj', hji, h1, h2⟩
  · intro i hi hty
    have hty' : ((skel c).get ⟨i, by rw [hlen]; exact hi⟩).2.1 ≠ NodeType.subParagraph := by
      rw [hget i hi]; exact hty
    have := hS i (by rw [hlen]; exact hi) hty'
    rw [hget i hi] at this
    exact this

/-- Witness for C3: in the two-line fixture the sub-paragraph at position 1
points back to the paragraph node_1 at position 0. -/
theorem c3_parent_refs_earlier_paragraph_witness :
    ∃ (j : Nat) (hj : j < (parse_mas_notice "1. First.\n(a) Sub." "w.pdf").content.length),
      j < 1 ∧
      ((parse_mas_notice "1. First.\n(a) Sub." "w.pdf").content.get ⟨j, hj⟩).node_id = "node_1" ∧
      ((parse_mas_notice "1. First.\n(a) Sub." "w.pdf").content.get ⟨j, hj⟩).node_type = NodeType.paragraph :=
  (c3_parent_refs_earlier_paragraph "1. First.\n(a) Sub." "w.pdf").1 1 (by decide) "node_1"
    (by decide) (by decide)

end ReguluS
